import Mathlib

/-!
Shallow embedding of `components::PostgreCache` from
`src/postgresql/include/cache/base_postgres_cache.hpp` (userver).

The cache container (`std::unordered_map` by default, or a policy-supplied
map type) is modelled as an association list with `insert_or_assign`
semantics; a fetched row is modelled as `Option (K × V)`, where `none`
stands for a row whose decoding (raw parse, `Convert`, or key extraction)
throws.  Durations are modelled in milliseconds: integer milliseconds for
timeouts and the update correction, rational milliseconds for the phase
timer used in the CPU-relax adaptation (`TimeStorage::RealMilliseconds`
is a `double`-valued duration in the source).
-/

namespace PgCache

/-- Update kind passed by the periodic-cache scheduler (`cache::UpdateType`). -/
inductive UpdateType where
  | kFull
  | kIncremental
deriving DecidableEq, Repr

/-- Allowed update types of the hosting scheduler (`cache::AllowedUpdateTypes`). -/
inductive AllowedUpdateTypes where
  | kOnlyFull
  | kOnlyIncremental
  | kFullAndIncremental
deriving DecidableEq, Repr

/-- A SQL query: statement text plus optional name (`storages::postgres::Query`). -/
structure Query where
  statement : String
  name : Option String
deriving DecidableEq, Repr

/-- Cache container: the working/published snapshot, modelled as an
association list from key to value (`DataCacheContainerType`). -/
abbrev AssocMap (K V : Type) : Type := List (K × V)

namespace AssocMap

variable {K V : Type} [DecidableEq K]

/-- Keys present in the container. -/
def keys (m : AssocMap K V) : List K := m.map Prod.fst

/-- Whether the container has an entry for `k`. -/
def containsKey (m : AssocMap K V) (k : K) : Bool :=
  m.any (fun p => decide (p.1 = k))

/-- Lookup of the value stored at key `k` (first entry with that key). -/
def find : AssocMap K V → K → Option V
  | [], _ => none
  | q :: m, k => if q.1 = k then some q.2 else find m k

/-- Insert-or-assign of a key/value pair
(`std::unordered_map::insert_or_assign`): if the key is present its value
is replaced, otherwise the pair is inserted. -/
def insertOrAssign (m : AssocMap K V) (k : K) (v : V) : AssocMap K V :=
  if containsKey m k then
    m.map (fun p => if p.1 = k then (k, v) else p)
  else
    m ++ [(k, v)]

/-- Upsert of a list of key/value pairs, first to last. -/
def upsertAll (m : AssocMap K V) (rows : List (K × V)) : AssocMap K V :=
  rows.foldl (fun acc p => insertOrAssign acc p.1 p.2) m

/-- Number of entries (`size()`). -/
def size (m : AssocMap K V) : Nat := m.length

end AssocMap

/-- A row as returned by a shard: `some (key, value)` if it decodes
successfully, `none` if decoding (raw parse, conversion to `ValueType`,
or key extraction) throws. -/
abbrev Row (K V : Type) : Type := Option (K × V)

/-- The compile-time cache policy, reduced to the data the update path
consumes: the base query (`PolicyChecker::GetQuery()`), the optional
`kWhere` fragment, the `kUpdatedField` column name (empty string when the
policy disables incremental updates) and the optional
`GetLastKnownUpdated` override. -/
structure Policy (K V : Type) where
  name : String
  query : Query
  kWhere : Option String
  kUpdatedField : String
  getLastKnownUpdated : Option (AssocMap K V → Int)

namespace Policy

variable {K V : Type}

/-- The flag `kIncrementalUpdates = kWantIncrementalUpdates`: true iff
`kUpdatedField` is non-empty. -/
def kIncrementalUpdates (p : Policy K V) : Bool :=
  decide (p.kUpdatedField ≠ "")

end Policy

/-- Full-update query (`PostgreCache::GetAllQuery`): the base query,
with ` where {kWhere}` appended when the policy has a `kWhere` fragment. -/
def GetAllQuery {K V : Type} (p : Policy K V) : Query :=
  match p.kWhere with
  | some w => { statement := p.query.statement ++ " where " ++ w, name := p.query.name }
  | none => p.query

/-- Incremental-update query (`PostgreCache::GetDeltaQuery`): when
incremental updates are enabled, the base query with the updated-field
bound appended (parenthesising `kWhere` when present); otherwise the full
query. -/
def GetDeltaQuery {K V : Type} (p : Policy K V) : Query :=
  if p.kIncrementalUpdates then
    match p.kWhere with
    | some w =>
      { statement := p.query.statement ++ " where (" ++ w ++ ") and "
          ++ p.kUpdatedField ++ " >= $1",
        name := p.query.name }
    | none =>
      { statement := p.query.statement ++ " where " ++ p.kUpdatedField ++ " >= $1",
        name := p.query.name }
  else
    GetAllQuery p

/-- Delta bound (`PostgreCache::GetLastUpdated`): the policy override
applied to the working container when defined, else
`last_update - correction_`.  Timestamps are integers (e.g. epoch
milliseconds); the override may return any comparable value, also
modelled as `Int`. -/
def GetLastUpdated {K V : Type} (p : Policy K V) (correction : Int)
    (lastUpdate : Int) (cache : AssocMap K V) : Int :=
  match p.getLastKnownUpdated with
  | some f => f cache
  | none => lastUpdate - correction

/-- Working-snapshot creation (`PostgreCache::GetDataSnapshot`): a deep
copy of the published snapshot for an incremental update when one exists,
otherwise an empty container. -/
def GetDataSnapshot {K V : Type} (published : Option (AssocMap K V))
    (type : UpdateType) : AssocMap K V :=
  if type = UpdateType.kIncremental then
    match published with
    | some d => d
    | none => ([] : List (K × V))
  else
    ([] : List (K × V))

/-- Per-result-set decode loop (`PostgreCache::CacheResults`): each row is
decoded and upserted into the working container; a row whose decoding
throws is skipped and counted as a parse failure
(`IncreaseDocumentsParseFailures(1)`), and the loop continues with the
next row.  Returns the updated container and the number of parse
failures in this result set. -/
def CacheResults {K V : Type} [DecidableEq K] :
    List (Row K V) → AssocMap K V → AssocMap K V × Nat
  | [], cache => (cache, 0)
  | some (k, v) :: rows, cache =>
    CacheResults rows (AssocMap.insertOrAssign cache k v)
  | none :: rows, cache =>
    let res := CacheResults rows cache
    (res.1, res.2 + 1)

/-- CPU-relax threshold (`kCpuRelaxThreshold`), in milliseconds. -/
def kCpuRelaxThreshold : ℚ := 10

/-- CPU-relax interval (`kCpuRelaxInterval`), in milliseconds. -/
def kCpuRelaxInterval : ℚ := 2

/-- Default full-update timeout (`kDefaultFullUpdateTimeout`), ms. -/
def kDefaultFullUpdateTimeout : Int := 60000

/-- Default incremental-update timeout
(`kDefaultIncrementalUpdateTimeout`), ms. -/
def kDefaultIncrementalUpdateTimeout : Int := 1000

/-- The kind actually executed by `PostgreCache::Update`: the
caller-supplied kind, coerced to full when the policy disables
incremental updates (`if constexpr (!kIncrementalUpdates) type = kFull`). -/
def effectiveType {K V : Type} (p : Policy K V) (type₀ : UpdateType) : UpdateType :=
  if p.kIncrementalUpdates then type₀ else UpdateType.kFull

/-- Accumulator of the shard loop inside `PostgreCache::Update`: the
working container, the `changes` counter, the accumulated parse-failure
count, and the trace of delta bounds passed to the statement, one per
shard in iteration order. -/
structure ShardAcc (K V : Type) where
  cache : AssocMap K V
  changes : Nat
  parseFailures : Nat
  bounds : List Int

/-- The per-shard loop of `PostgreCache::Update` (`for (auto cluster :
clusters_)`): for each shard, the delta bound is computed from the current
working container by `GetLastUpdated`, the shard's rows are decoded and
upserted by `CacheResults`, and `changes` grows by the number of fetched
rows (`res.Size()`), decoding failures included.  Chunked (portal) and
single-statement execution accumulate identically over a shard's rows. -/
def runShards {K V : Type} [DecidableEq K] (p : Policy K V) (correction : Int)
    (lastUpdate : Int) : ShardAcc K V → List (List (Row K V)) → ShardAcc K V
  | acc, [] => acc
  | acc, rows :: rest =>
    let bound := GetLastUpdated p correction lastUpdate acc.cache
    let res := CacheResults rows acc.cache
    runShards p correction lastUpdate
      { cache := res.1,
        changes := acc.changes + rows.length,
        parseFailures := acc.parseFailures + res.2,
        bounds := acc.bounds ++ [bound] }
      rest

/-- Mutable per-instance state threaded across updates: the published
snapshot slot (`CachingComponentBase::Get`/`Set`) and the persistent
`cpu_relax_iterations_` counter. -/
structure CacheState (K V : Type) where
  published : Option (AssocMap K V)
  cpuRelaxIterations : Nat

/-- Observable outcome of one `PostgreCache::Update` execution. -/
structure UpdateOutcome (K V : Type) where
  /-- State after the update: snapshot slot and relax counter. -/
  state : CacheState K V
  /-- Whether `Set` was called (working snapshot published). -/
  set : Bool
  /-- `some size` when `stats_scope.Finish(size)` ran, `none` when
  `stats_scope.FinishNoChanges()` ran. -/
  finishedSize : Option Nat
  /-- Final value of the `changes` counter. -/
  changes : Nat
  /-- Total parse failures counted in this update. -/
  parseFailures : Nat
  /-- Statement text of the query used. -/
  queryUsed : String
  /-- Operation timeout used, ms. -/
  timeoutUsed : Int
  /-- Delta bound bound to the statement, one per shard in order. -/
  bounds : List Int

/-- One execution of `PostgreCache::Update`.  `type₀` is the
caller-supplied kind, coerced to full when the policy disables
incremental updates; `shards` gives the rows each shard returns in
cluster order; `parseElapsedMs` is `scope.ElapsedTotal("parse")` at the
end of the loop.  The relax counter is recomputed when rows changed and
the parse phase exceeded the threshold; the working snapshot is
published iff rows changed or the kind is full. -/
def Update {K V : Type} [DecidableEq K] (p : Policy K V) (correction : Int)
    (fullUpdateTimeout incrementalUpdateTimeout : Int) (st : CacheState K V)
    (type₀ : UpdateType) (lastUpdate : Int) (shards : List (List (Row K V)))
    (parseElapsedMs : ℚ) : UpdateOutcome K V :=
  let type := effectiveType p type₀
  let query := if type = UpdateType.kFull then GetAllQuery p else GetDeltaQuery p
  let timeout :=
    if type = UpdateType.kFull then fullUpdateTimeout else incrementalUpdateTimeout
  let dataCache := GetDataSnapshot st.published type
  let fin := runShards p correction lastUpdate
    { cache := dataCache, changes := 0, parseFailures := 0, bounds := [] } shards
  let relaxIterations :=
    if 0 < fin.changes ∧ kCpuRelaxThreshold < parseElapsedMs then
      (⌊(fin.changes : ℚ) / (parseElapsedMs / kCpuRelaxInterval)⌋).toNat
    else
      st.cpuRelaxIterations
  if 0 < fin.changes ∨ type = UpdateType.kFull then
    { state := { published := some fin.cache, cpuRelaxIterations := relaxIterations },
      set := true,
      finishedSize := some fin.cache.size,
      changes := fin.changes,
      parseFailures := fin.parseFailures,
      queryUsed := query.statement,
      timeoutUsed := timeout,
      bounds := fin.bounds }
  else
    { state := { published := st.published, cpuRelaxIterations := relaxIterations },
      set := false,
      finishedSize := none,
      changes := fin.changes,
      parseFailures := fin.parseFailures,
      queryUsed := query.statement,
      timeoutUsed := timeout,
      bounds := fin.bounds }

/-- Construction-time errors of `PostgreCache::PostgreCache`, in the
order the constructor checks them. -/
inductive ConstructError where
  | incrementalNotSupported
  | negativeCorrection
  | emptyPgcomponent
deriving DecidableEq, Repr

/-- Configuration values read by the constructor, after defaulting
(`update-correction` 0, `full-update-op-timeout` 60 s,
`incremental-update-op-timeout` 1 s, `chunk-size` 0). -/
structure ComponentConfig where
  updateCorrection : Int
  fullUpdateOpTimeout : Int
  incrementalUpdateOpTimeout : Int
  chunkSize : Nat
  pgcomponent : String

/-- A successfully constructed cache component: its resolved settings,
one cluster handle per shard, and started periodic updates. -/
structure CacheInstance where
  correction : Int
  fullUpdateTimeout : Int
  incrementalUpdateTimeout : Int
  chunkSize : Nat
  clusterCount : Nat
  periodicUpdatesStarted : Bool

/-- The constructor `PostgreCache::PostgreCache`: throws when the
scheduler allows full-and-incremental updates but the policy disables
incremental updates, when the update correction is negative, or when the
`pgcomponent` entry is empty; otherwise registers one cluster handle per
shard and starts periodic updates. -/
def construct {K V : Type} (p : Policy K V) (allowed : AllowedUpdateTypes)
    (cfg : ComponentConfig) (shardCount : Nat) :
    Except ConstructError CacheInstance :=
  if allowed = AllowedUpdateTypes.kFullAndIncremental ∧ ¬p.kIncrementalUpdates then
    Except.error ConstructError.incrementalNotSupported
  else if cfg.updateCorrection < 0 then
    Except.error ConstructError.negativeCorrection
  else if cfg.pgcomponent = "" then
    Except.error ConstructError.emptyPgcomponent
  else
    Except.ok
      { correction := cfg.updateCorrection,
        fullUpdateTimeout := cfg.fullUpdateOpTimeout,
        incrementalUpdateTimeout := cfg.incrementalUpdateOpTimeout,
        chunkSize := cfg.chunkSize,
        clusterCount := shardCount,
        periodicUpdatesStarted := true }

/-- Specification helper: the successfully decoded rows of one result
set, in order. -/
def decodedRows {K V : Type} (rows : List (Row K V)) : List (K × V) :=
  rows.filterMap id

/-- Specification helper: all successfully decoded rows across shards,
in iteration order. -/
def allDecodedRows {K V : Type} (shards : List (List (Row K V))) : List (K × V) :=
  (shards.map decodedRows).flatten

/-- Specification helper: total number of rows fetched across shards,
decoding failures included. -/
def fetchedCount {K V : Type} (shards : List (List (Row K V))) : Nat :=
  (shards.map List.length).sum

/-- Specification helper: number of rows whose decoding throws, in one
result set. -/
def failedCount {K V : Type} (rows : List (Row K V)) : Nat :=
  rows.countP (fun r => r.isNone)

/-- Specification helper: the value carried by the last row of `rows`
with key `k`, if any (the last writer for that key): a later row
overrides an earlier one. -/
def lastValue {K V : Type} [DecidableEq K] : List (K × V) → K → Option V
  | [], _ => none
  | q :: rows, k => (lastValue rows k).or (if q.1 = k then some q.2 else none)

/-- Specification helper: the delta bounds an update passes to the
statement, one per shard — each computed by `GetLastUpdated` from the
working container as it stands when that shard is reached. -/
def boundsSpec {K V : Type} [DecidableEq K] (p : Policy K V)
    (correction lastUpdate : Int) :
    AssocMap K V → List (List (Row K V)) → List Int
  | _, [] => []
  | c, rows :: rest =>
    GetLastUpdated p correction lastUpdate c
      :: boundsSpec p correction lastUpdate
          (AssocMap.upsertAll c (decodedRows rows)) rest

variable {K V : Type} [DecidableEq K]

/-- `insertOrAssign` on a cons either rewrites the head (key hit) or
keeps the head and recurses. -/
theorem AssocMap.insertOrAssign_cons (q : K × V) (m : AssocMap K V) (k : K) (v : V) :
    AssocMap.insertOrAssign (q :: m) k v =
      if q.1 = k then
        (k, v) :: m.map (fun r => if r.1 = k then (k, v) else r)
      else
        q :: AssocMap.insertOrAssign m k v := by
  by_cases hq : q.1 = k
  · simp [AssocMap.insertOrAssign, AssocMap.containsKey, List.any_cons, hq]
  · by_cases hm : AssocMap.containsKey m k
    · simp_all [AssocMap.insertOrAssign, AssocMap.containsKey, List.any_cons, hq, hm]
    · simp_all [AssocMap.insertOrAssign, AssocMap.containsKey, List.any_cons, hq, hm]

/-- Reassigning key `k` does not change lookups of other keys. -/
theorem AssocMap.find_map_assign_ne (m : AssocMap K V) (k k' : K) (v : V)
    (h : k' ≠ k) :
    AssocMap.find (m.map (fun r => if r.1 = k then (k, v) else r)) k' =
      AssocMap.find m k' := by
  induction m with
  | nil => rfl
  | cons q rest ih =>
    by_cases hq : q.1 = k
    · have hk : ¬(k = k') := fun hkk => h hkk.symm
      simp [AssocMap.find, hq, hk, ih]
    · simp [AssocMap.find, hq, ih]

/-- Lookup after `insertOrAssign`: the assigned key maps to the new
value, every other key is unchanged. -/
theorem AssocMap.find_insertOrAssign (m : AssocMap K V) (k k' : K) (v : V) :
    AssocMap.find (AssocMap.insertOrAssign m k v) k' =
      if k' = k then some v else AssocMap.find m k' := by
  induction m with
  | nil =>
    by_cases h : k' = k <;>
      simp [AssocMap.insertOrAssign, AssocMap.containsKey, AssocMap.find,
        eq_comm, h]
  | cons q rest ih =>
    rw [AssocMap.insertOrAssign_cons]
    by_cases hq : q.1 = k
    · rw [if_pos hq]
      by_cases h : k' = k
      · simp [AssocMap.find, h]
      · have hk : ¬(k = k') := fun hkk => h hkk.symm
        have hq' : ¬(q.1 = k') := by rw [hq]; exact hk
        simp [AssocMap.find, hk, h, hq',
          AssocMap.find_map_assign_ne rest k k' v h]
    · rw [if_neg hq]
      by_cases hq' : q.1 = k'
      · have h : ¬(k' = k) := fun hkk => hq (hq'.trans hkk)
        simp [AssocMap.find, hq', h]
      · simp [AssocMap.find, hq', ih]

/-- A key has a value iff it is among the container's keys. -/
theorem AssocMap.find_isSome_iff (m : AssocMap K V) (k : K) :
    (AssocMap.find m k).isSome = true ↔ k ∈ AssocMap.keys m := by
  induction m with
  | nil => simp [AssocMap.find, AssocMap.keys]
  | cons q rest ih =>
    by_cases hq : q.1 = k
    · simp [AssocMap.find, AssocMap.keys, hq]
    · have hk : ¬(k = q.1) := fun hkk => hq hkk.symm
      simp [AssocMap.find, AssocMap.keys, hq, hk, ih]

/-- Key-set effect of `insertOrAssign`. -/
theorem AssocMap.mem_keys_insertOrAssign (m : AssocMap K V) (k k' : K) (v : V) :
    k' ∈ AssocMap.keys (AssocMap.insertOrAssign m k v) ↔
      k' = k ∨ k' ∈ AssocMap.keys m := by
  rw [← AssocMap.find_isSome_iff, ← AssocMap.find_isSome_iff,
    AssocMap.find_insertOrAssign]
  by_cases h : k' = k <;> simp [h]

/-- `upsertAll` of the empty row list. -/
theorem AssocMap.upsertAll_nil (m : AssocMap K V) :
    AssocMap.upsertAll m ([] : List (K × V)) = m := rfl

/-- `upsertAll` of a cons. -/
theorem AssocMap.upsertAll_cons (m : AssocMap K V) (q : K × V)
    (rows : List (K × V)) :
    AssocMap.upsertAll m (q :: rows) =
      AssocMap.upsertAll (AssocMap.insertOrAssign m q.1 q.2) rows := rfl

/-- `upsertAll` over a concatenation composes. -/
theorem AssocMap.upsertAll_append (m : AssocMap K V) (r₁ r₂ : List (K × V)) :
    AssocMap.upsertAll m (r₁ ++ r₂) =
      AssocMap.upsertAll (AssocMap.upsertAll m r₁) r₂ := by
  simp [AssocMap.upsertAll, List.foldl_append]

/-- Lookup after `upsertAll`: the last row with the key wins, otherwise
the original binding survives. -/
theorem AssocMap.find_upsertAll (m : AssocMap K V) (rows : List (K × V))
    (k : K) :
    AssocMap.find (AssocMap.upsertAll m rows) k =
      (lastValue rows k).or (AssocMap.find m k) := by
  induction rows generalizing m with
  | nil => simp [lastValue, AssocMap.upsertAll_nil]
  | cons q rows ih =>
    rw [AssocMap.upsertAll_cons, ih, AssocMap.find_insertOrAssign]
    cases h : lastValue rows k
    · by_cases hq : q.1 = k
      · simp [lastValue, h, hq, Option.or]
      · have hk : ¬(k = q.1) := fun hkk => hq hkk.symm
        simp [lastValue, h, hq, hk, Option.or]
    · simp [lastValue, h, Option.or]

/-- Key-set effect of `upsertAll`: union with the rows' keys. -/
theorem AssocMap.mem_keys_upsertAll (m : AssocMap K V) (rows : List (K × V))
    (k : K) :
    k ∈ AssocMap.keys (AssocMap.upsertAll m rows) ↔
      k ∈ AssocMap.keys m ∨ k ∈ rows.map Prod.fst := by
  induction rows generalizing m with
  | nil => simp [AssocMap.upsertAll_nil]
  | cons q rows ih =>
    rw [AssocMap.upsertAll_cons]
    rw [ih]
    simp [AssocMap.mem_keys_insertOrAssign]
    tauto

/-- The container produced by `CacheResults` is the upsert of the
successfully decoded rows. -/
theorem CacheResults_fst (rows : List (Row K V)) (cache : AssocMap K V) :
    (CacheResults rows cache).1 = AssocMap.upsertAll cache (decodedRows rows) := by
  induction rows generalizing cache with
  | nil => rfl
  | cons r rows ih =>
    cases r with
    | none => simp [CacheResults, decodedRows, List.filterMap_cons, ih]
    | some q =>
      cases q with
      | mk k v =>
        simp [CacheResults, decodedRows, List.filterMap_cons, ih,
          AssocMap.upsertAll_cons]

/-- `CacheResults` counts exactly one parse failure per row whose
decoding throws. -/
theorem CacheResults_snd (rows : List (Row K V)) (cache : AssocMap K V) :
    (CacheResults rows cache).2 = failedCount rows := by
  induction rows generalizing cache with
  | nil => rfl
  | cons r rows ih =>
    cases r with
    | none => simp [CacheResults, failedCount, List.countP_cons, ih]
    | some q =>
      cases q with
      | mk k v =>
        simp [CacheResults, failedCount, List.countP_cons, ih]

/-- The shard loop's working container: the upsert of all decoded rows,
across shards in order. -/
theorem runShards_cache (p : Policy K V) (correction lastUpdate : Int)
    (acc : ShardAcc K V) (shards : List (List (Row K V))) :
    (runShards p correction lastUpdate acc shards).cache =
      AssocMap.upsertAll acc.cache (allDecodedRows shards) := by
  induction shards generalizing acc with
  | nil => simp [runShards, allDecodedRows, AssocMap.upsertAll_nil]
  | cons rows rest ih =>
    rw [runShards, ih]
    simp [allDecodedRows, List.flatten_cons, AssocMap.upsertAll_append,
      CacheResults_fst]

/-- The shard loop's `changes` counter: the number of fetched rows across
shards, decoding failures included. -/
theorem runShards_changes (p : Policy K V) (correction lastUpdate : Int)
    (acc : ShardAcc K V) (shards : List (List (Row K V))) :
    (runShards p correction lastUpdate acc shards).changes =
      acc.changes + fetchedCount shards := by
  induction shards generalizing acc with
  | nil => simp [runShards, fetchedCount]
  | cons rows rest ih =>
    rw [runShards, ih]
    simp [fetchedCount, List.sum_cons]
    omega

/-- The shard loop's accumulated parse failures. -/
theorem runShards_parseFailures (p : Policy K V) (correction lastUpdate : Int)
    (acc : ShardAcc K V) (shards : List (List (Row K V))) :
    (runShards p correction lastUpdate acc shards).parseFailures =
      acc.parseFailures + (shards.map failedCount).sum := by
  induction shards generalizing acc with
  | nil => simp [runShards]
  | cons rows rest ih =>
    rw [runShards, ih]
    simp [List.sum_cons, CacheResults_snd]
    omega

/-- The shard loop's delta bounds: one per shard, each computed from the
working container as the shard is reached. -/
theorem runShards_bounds (p : Policy K V) (correction lastUpdate : Int)
    (acc : ShardAcc K V) (shards : List (List (Row K V))) :
    (runShards p correction lastUpdate acc shards).bounds =
      acc.bounds ++ boundsSpec p correction lastUpdate acc.cache shards := by
  induction shards generalizing acc with
  | nil => simp [runShards, boundsSpec]
  | cons rows rest ih =>
    rw [runShards, ih]
    simp [boundsSpec, CacheResults_fst]

omit [DecidableEq K] in
/-- If no rows are fetched at all, no rows decode. -/
theorem allDecodedRows_of_fetchedCount_zero (shards : List (List (Row K V)))
    (h : fetchedCount shards = 0) : allDecodedRows shards = [] := by
  induction shards with
  | nil => rfl
  | cons rows rest ih =>
    rw [fetchedCount, List.map_cons, List.sum_cons] at h
    have h1 : rows.length = 0 := by omega
    have h2 : fetchedCount rest = 0 := by rw [fetchedCount]; omega
    have hnil : rows = [] := List.eq_nil_of_length_eq_zero h1
    have hrest := ih h2
    rw [allDecodedRows] at hrest ⊢
    rw [List.map_cons, List.flatten_cons, hnil, hrest]
    rfl

/-- The `changes` counter of an update equals the number of fetched rows
across shards, decoding failures included. -/
theorem Update_changes (p : Policy K V) (correction ft it : Int)
    (st : CacheState K V) (t₀ : UpdateType) (lu : Int)
    (shards : List (List (Row K V))) (d : ℚ) :
    (Update p correction ft it st t₀ lu shards d).changes =
      fetchedCount shards := by
  simp only [Update]
  split <;> simp [runShards_changes]

/-- The parse-failure count of an update. -/
theorem Update_parseFailures (p : Policy K V) (correction ft it : Int)
    (st : CacheState K V) (t₀ : UpdateType) (lu : Int)
    (shards : List (List (Row K V))) (d : ℚ) :
    (Update p correction ft it st t₀ lu shards d).parseFailures =
      (shards.map failedCount).sum := by
  simp only [Update]
  split <;> simp [runShards_parseFailures]

/-- The query used by an update, driven by the effective kind. -/
theorem Update_queryUsed (p : Policy K V) (correction ft it : Int)
    (st : CacheState K V) (t₀ : UpdateType) (lu : Int)
    (shards : List (List (Row K V))) (d : ℚ) :
    (Update p correction ft it st t₀ lu shards d).queryUsed =
      (if effectiveType p t₀ = UpdateType.kFull then GetAllQuery p
       else GetDeltaQuery p).statement := by
  simp only [Update]
  split <;> rfl

/-- The operation timeout used by an update, driven by the effective
kind. -/
theorem Update_timeoutUsed (p : Policy K V) (correction ft it : Int)
    (st : CacheState K V) (t₀ : UpdateType) (lu : Int)
    (shards : List (List (Row K V))) (d : ℚ) :
    (Update p correction ft it st t₀ lu shards d).timeoutUsed =
      (if effectiveType p t₀ = UpdateType.kFull then ft else it) := by
  simp only [Update]
  split <;> rfl

/-- The delta bounds passed to the statement, one per shard. -/
theorem Update_bounds (p : Policy K V) (correction ft it : Int)
    (st : CacheState K V) (t₀ : UpdateType) (lu : Int)
    (shards : List (List (Row K V))) (d : ℚ) :
    (Update p correction ft it st t₀ lu shards d).bounds =
      boundsSpec p correction lu
        (GetDataSnapshot st.published (effectiveType p t₀)) shards := by
  simp only [Update]
  split <;> simp [runShards_bounds]

/-- The publication decision of an update. -/
theorem Update_set_iff (p : Policy K V) (correction ft it : Int)
    (st : CacheState K V) (t₀ : UpdateType) (lu : Int)
    (shards : List (List (Row K V))) (d : ℚ) :
    (Update p correction ft it st t₀ lu shards d).set = true ↔
      (0 < fetchedCount shards ∨ effectiveType p t₀ = UpdateType.kFull) := by
  simp only [Update]
  split
  · simp_all [runShards_changes]
  · simp_all [runShards_changes]

/-- The published snapshot after an update: the working container (the
prior snapshot copy upserted with all decoded rows) when the update
publishes, the untouched slot otherwise. -/
theorem Update_published (p : Policy K V) (correction ft it : Int)
    (st : CacheState K V) (t₀ : UpdateType) (lu : Int)
    (shards : List (List (Row K V))) (d : ℚ) :
    (Update p correction ft it st t₀ lu shards d).state.published =
      (if 0 < fetchedCount shards ∨ effectiveType p t₀ = UpdateType.kFull then
        some (AssocMap.upsertAll
          (GetDataSnapshot st.published (effectiveType p t₀))
          (allDecodedRows shards))
      else st.published) := by
  simp only [Update]
  split
  · rename_i h
    simp only [runShards_changes] at h
    rw [Nat.zero_add] at h
    rw [if_pos h]
    simp [runShards_cache]
  · rename_i h
    simp only [runShards_changes] at h
    rw [Nat.zero_add] at h
    rw [if_neg h]

/-- The finish statistic of an update: a final size when it publishes,
"no changes" otherwise. -/
theorem Update_finishedSize (p : Policy K V) (correction ft it : Int)
    (st : CacheState K V) (t₀ : UpdateType) (lu : Int)
    (shards : List (List (Row K V))) (d : ℚ) :
    (Update p correction ft it st t₀ lu shards d).finishedSize =
      (if 0 < fetchedCount shards ∨ effectiveType p t₀ = UpdateType.kFull then
        some (AssocMap.size (AssocMap.upsertAll
          (GetDataSnapshot st.published (effectiveType p t₀))
          (allDecodedRows shards)))
      else none) := by
  simp only [Update]
  split
  · rename_i h
    simp only [runShards_changes] at h
    rw [Nat.zero_add] at h
    rw [if_pos h]
    simp [runShards_cache]
  · rename_i h
    simp only [runShards_changes] at h
    rw [Nat.zero_add] at h
    rw [if_neg h]

/-- The persistent CPU-relax iteration count after an update. -/
theorem Update_relax (p : Policy K V) (correction ft it : Int)
    (st : CacheState K V) (t₀ : UpdateType) (lu : Int)
    (shards : List (List (Row K V))) (d : ℚ) :
    (Update p correction ft it st t₀ lu shards d).state.cpuRelaxIterations =
      (if 0 < fetchedCount shards ∧ kCpuRelaxThreshold < d then
        (⌊(fetchedCount shards : ℚ) / (d / kCpuRelaxInterval)⌋).toNat
      else st.cpuRelaxIterations) := by
  simp only [Update]
  split <;> simp only [runShards_changes] <;> simp

/-- `boundsSpec` yields one bound per shard. -/
theorem boundsSpec_length (p : Policy K V) (correction lastUpdate : Int)
    (c : AssocMap K V) (shards : List (List (Row K V))) :
    (boundsSpec p correction lastUpdate c shards).length = shards.length := by
  induction shards generalizing c with
  | nil => rfl
  | cons rows rest ih => simp [boundsSpec, ih]

/-- Without a `GetLastKnownUpdated` override every shard's bound is
`last_update - correction`. -/
theorem boundsSpec_default (p : Policy K V) (correction lastUpdate : Int)
    (c : AssocMap K V) (shards : List (List (Row K V)))
    (h : p.getLastKnownUpdated = none) :
    boundsSpec p correction lastUpdate c shards =
      List.replicate shards.length (lastUpdate - correction) := by
  induction shards generalizing c with
  | nil => rfl
  | cons rows rest ih =>
    simp [boundsSpec, GetLastUpdated, h, List.replicate_succ, ih]

omit [DecidableEq K] in
/-- A result set in which every row's decoding throws decodes to no rows. -/
theorem decodedRows_of_all_none (rows : List (Row K V))
    (h : ∀ r ∈ rows, r = (none : Row K V)) : decodedRows rows = [] := by
  induction rows with
  | nil => rfl
  | cons r rest ih =>
    have hr : r = none := h r (List.mem_cons_self r rest)
    rw [decodedRows, hr, List.filterMap_cons]
    exact ih (fun r hr => h r (List.mem_cons_of_mem _ hr))

omit [DecidableEq K] in
/-- If every fetched row's decoding throws, nothing decodes. -/
theorem allDecodedRows_of_all_none (shards : List (List (Row K V)))
    (h : ∀ rows ∈ shards, ∀ r ∈ rows, r = (none : Row K V)) :
    allDecodedRows shards = [] := by
  induction shards with
  | nil => rfl
  | cons rows rest ih =>
    rw [allDecodedRows, List.map_cons, List.flatten_cons]
    rw [decodedRows_of_all_none rows (h rows (List.mem_cons_self rows rest))]
    have := ih (fun rows hr => h rows (List.mem_cons_of_mem _ hr))
    rw [allDecodedRows] at this
    simp [this]

/-- A concrete policy with a `kWhere` fragment and incremental updates
enabled, used to instantiate theorems on concrete inputs. -/
def samplePolicy : Policy Nat String :=
  { name := "test-cache",
    query := { statement := "SELECT id, name FROM t", name := some "q" },
    kWhere := some "active",
    kUpdatedField := "updated",
    getLastKnownUpdated := none }

/-- A concrete policy without a `kWhere` fragment. -/
def samplePolicyNoWhere : Policy Nat String :=
  { name := "test-cache-nw",
    query := { statement := "SELECT id, name FROM t", name := none },
    kWhere := none,
    kUpdatedField := "updated",
    getLastKnownUpdated := none }

/-- A concrete policy with incremental updates disabled (empty update
field). -/
def samplePolicyNoIncr : Policy Nat String :=
  { name := "test-cache-ni",
    query := { statement := "SELECT id, name FROM t", name := none },
    kWhere := some "active",
    kUpdatedField := "",
    getLastKnownUpdated := none }

/-- A concrete policy with a `GetLastKnownUpdated` override returning the
container size. -/
def samplePolicyCustom : Policy Nat String :=
  { name := "test-cache-cu",
    query := { statement := "SELECT id, name FROM t", name := none },
    kWhere := none,
    kUpdatedField := "updated",
    getLastKnownUpdated := some (fun c => (AssocMap.size c : Int)) }

/-- C1: for every update execution the working snapshot is published via
`Set` iff the effective update kind is full or the `changes` counter is
positive; a full update fetching zero rows publishes the empty snapshot,
and an incremental update fetching zero rows leaves the published
snapshot unchanged and reports "no changes". -/
theorem update_publishes_iff_full_or_changes
    (p : Policy K V) (correction ft it : Int) (st : CacheState K V)
    (t₀ : UpdateType) (lu : Int) (shards : List (List (Row K V))) (d : ℚ) :
    ((Update p correction ft it st t₀ lu shards d).set = true ↔
      (effectiveType p t₀ = UpdateType.kFull ∨
        0 < (Update p correction ft it st t₀ lu shards d).changes))
    ∧ (effectiveType p t₀ = UpdateType.kFull → fetchedCount shards = 0 →
        (Update p correction ft it st t₀ lu shards d).state.published =
          some ([] : AssocMap K V) ∧
        (Update p correction ft it st t₀ lu shards d).set = true)
    ∧ (effectiveType p t₀ = UpdateType.kIncremental → fetchedCount shards = 0 →
        (Update p correction ft it st t₀ lu shards d).state.published =
          st.published ∧
        (Update p correction ft it st t₀ lu shards d).set = false ∧
        (Update p correction ft it st t₀ lu shards d).finishedSize = none) := by
  refine ⟨?_, ?_, ?_⟩
  · rw [Update_set_iff, Update_changes]
    tauto
  · intro hfull hzero
    have hcond : 0 < fetchedCount shards ∨ effectiveType p t₀ = UpdateType.kFull :=
      Or.inr hfull
    constructor
    · rw [Update_published, if_pos hcond, hfull,
        allDecodedRows_of_fetchedCount_zero shards hzero]
      rfl
    · rw [Update_set_iff]
      exact hcond
  · intro hincr hzero
    have hcond : ¬(0 < fetchedCount shards ∨ effectiveType p t₀ = UpdateType.kFull) := by
      rw [hincr, hzero]
      simp
    refine ⟨?_, ?_, ?_⟩
    · rw [Update_published, if_neg hcond]
    · have := Update_set_iff p correction ft it st t₀ lu shards d
      rcases h : (Update p correction ft it st t₀ lu shards d).set with _ | _
      · rfl
      · exact absurd (this.mp h) hcond
    · rw [Update_finishedSize, if_neg hcond]

/-- Witness for C1: a full update with zero rows publishes the empty
snapshot, at a concrete policy and state. -/
theorem update_publishes_iff_full_or_changes_witness :
    (Update samplePolicy 0 60000 1000
        { published := some [(1, "a")], cpuRelaxIterations := 7 }
        UpdateType.kFull 100 [[]] 0).state.published =
      some ([] : AssocMap Nat String) :=
  ((update_publishes_iff_full_or_changes samplePolicy 0 60000 1000
      { published := some [(1, "a")], cpuRelaxIterations := 7 }
      UpdateType.kFull 100 [[]] 0).2.1 (by decide) (by decide)).1

/-- C2: an incremental update starting from published snapshot `S` that
decodes row set `R` results in the snapshot `upsertAll S R`: the last row
of `R` for a key replaces any prior value for that key, keys not in `R`
keep their binding from `S`, and every key of `S` is still present. -/
theorem incremental_update_is_upsert
    (p : Policy K V) (correction ft it : Int) (S : AssocMap K V) (ri : Nat)
    (lu : Int) (shards : List (List (Row K V))) (d : ℚ)
    (hinc : p.kIncrementalUpdates = true) :
    (Update p correction ft it { published := some S, cpuRelaxIterations := ri }
        UpdateType.kIncremental lu shards d).state.published =
      some (AssocMap.upsertAll S (allDecodedRows shards))
    ∧ (∀ k, AssocMap.find (AssocMap.upsertAll S (allDecodedRows shards)) k =
        (lastValue (allDecodedRows shards) k).or (AssocMap.find S k))
    ∧ (∀ k, k ∈ AssocMap.keys S →
        k ∈ AssocMap.keys (AssocMap.upsertAll S (allDecodedRows shards))) := by
  have heff : effectiveType p UpdateType.kIncremental = UpdateType.kIncremental := by
    simp [effectiveType, hinc]
  refine ⟨?_, ?_, ?_⟩
  · rw [Update_published]
    by_cases hfc : 0 < fetchedCount shards
    · rw [if_pos (Or.inl hfc), heff]
      rfl
    · have hzero : fetchedCount shards = 0 := Nat.eq_zero_of_not_pos hfc
      rw [if_neg (by rw [heff]; simpa using hfc),
        allDecodedRows_of_fetchedCount_zero shards hzero,
        AssocMap.upsertAll_nil]
  · intro k
    exact AssocMap.find_upsertAll S (allDecodedRows shards) k
  · intro k hk
    rw [AssocMap.mem_keys_upsertAll]
    exact Or.inl hk

/-- Witness for C2: an incremental update upserting one replaced and one
new key at a concrete policy. -/
theorem incremental_update_is_upsert_witness :
    (Update samplePolicy 0 60000 1000
        { published := some [(1, "a")], cpuRelaxIterations := 0 }
        UpdateType.kIncremental 100 [[some (1, "b"), some (3, "c")]] 0).state.published =
      some [(1, "b"), (3, "c")] :=
  ((incremental_update_is_upsert samplePolicy 0 60000 1000 [(1, "a")] 0 100
      [[some (1, "b"), some (3, "c")]] 0 (by decide)).1).trans (by decide)

/-- C3: the working container of a full update starts empty (the prior
snapshot is copied only for incremental updates with a published
snapshot), and the key set of the snapshot published by a full update is
exactly the key set of its decoded result rows. -/
theorem full_update_key_set
    (p : Policy K V) (correction ft it : Int) (st : CacheState K V)
    (lu : Int) (shards : List (List (Row K V))) (d : ℚ) :
    GetDataSnapshot st.published UpdateType.kFull = ([] : AssocMap K V)
    ∧ (∀ S : AssocMap K V,
        GetDataSnapshot (some S) UpdateType.kIncremental = S)
    ∧ GetDataSnapshot (none : Option (AssocMap K V)) UpdateType.kIncremental =
        ([] : AssocMap K V)
    ∧ (Update p correction ft it st UpdateType.kFull lu shards d).state.published =
        some (AssocMap.upsertAll ([] : AssocMap K V) (allDecodedRows shards))
    ∧ (∀ k,
        k ∈ AssocMap.keys
          (AssocMap.upsertAll ([] : AssocMap K V) (allDecodedRows shards)) ↔
        k ∈ (allDecodedRows shards).map Prod.fst) := by
  have heff : effectiveType p UpdateType.kFull = UpdateType.kFull := by
    simp [effectiveType]
  refine ⟨rfl, fun S => rfl, rfl, ?_, ?_⟩
  · rw [Update_published, if_pos (Or.inr heff), heff]
    rfl
  · intro k
    rw [AssocMap.mem_keys_upsertAll]
    simp [AssocMap.keys]

/-- Witness for C3: a full update from a non-empty published snapshot
replaces it with exactly the fetched keys. -/
theorem full_update_key_set_witness :
    (Update samplePolicy 0 60000 1000
        { published := some [(9, "z")], cpuRelaxIterations := 0 }
        UpdateType.kFull 100 [[some (1, "a"), some (2, "b")]] 0).state.published =
      some [(1, "a"), (2, "b")] :=
  ((full_update_key_set samplePolicy 0 60000 1000
      { published := some [(9, "z")], cpuRelaxIterations := 0 }
      100 [[some (1, "a"), some (2, "b")]] 0).2.2.2.1).trans (by decide)

omit [DecidableEq K] in
/-- C4: the emitted delta query is the base query with
` where ({W}) and {U} >= $1` appended when a `kWhere` fragment `W` is
set, and with ` where {U} >= $1` appended when it is not; with
incremental updates disabled the delta query equals the full query,
which is the base query with an optional ` where {W}`. -/
theorem delta_query_composition (p : Policy K V) :
    (∀ w, p.kWhere = some w → p.kIncrementalUpdates = true →
      (GetDeltaQuery p).statement =
        p.query.statement ++ " where (" ++ w ++ ") and "
          ++ p.kUpdatedField ++ " >= $1")
    ∧ (p.kWhere = none → p.kIncrementalUpdates = true →
      (GetDeltaQuery p).statement =
        p.query.statement ++ " where " ++ p.kUpdatedField ++ " >= $1")
    ∧ (p.kIncrementalUpdates = false → GetDeltaQuery p = GetAllQuery p)
    ∧ (∀ w, p.kWhere = some w →
      (GetAllQuery p).statement = p.query.statement ++ " where " ++ w)
    ∧ (p.kWhere = none → (GetAllQuery p).statement = p.query.statement) := by
  refine ⟨?_, ?_, ?_, ?_, ?_⟩
  · intro w hw hinc
    simp [GetDeltaQuery, hinc, hw]
  · intro hw hinc
    simp [GetDeltaQuery, hinc, hw]
  · intro hinc
    simp [GetDeltaQuery, hinc]
  · intro w hw
    simp [GetAllQuery, hw]
  · intro hw
    simp [GetAllQuery, hw]

/-- Witness for C4: the composed query strings at concrete policies,
character for character. -/
theorem delta_query_composition_witness :
    (GetDeltaQuery samplePolicy).statement =
      "SELECT id, name FROM t where (active) and updated >= $1" :=
  ((delta_query_composition samplePolicy).1 "active" (by decide)
    (by decide)).trans (by decide)

/-- C5: when the policy has an empty update field, the caller-supplied
kind is coerced to full, so the full query and the full-update timeout
are used and the update always publishes. -/
theorem disabled_incremental_coerces_to_full
    (p : Policy K V) (correction ft it : Int) (st : CacheState K V)
    (t₀ : UpdateType) (lu : Int) (shards : List (List (Row K V))) (d : ℚ)
    (hdis : p.kUpdatedField = "") :
    effectiveType p t₀ = UpdateType.kFull
    ∧ (Update p correction ft it st t₀ lu shards d).queryUsed =
        (GetAllQuery p).statement
    ∧ (Update p correction ft it st t₀ lu shards d).timeoutUsed = ft
    ∧ (Update p correction ft it st t₀ lu shards d).set = true := by
  have hni : p.kIncrementalUpdates = false := by
    simp [Policy.kIncrementalUpdates, hdis]
  have heff : effectiveType p t₀ = UpdateType.kFull := by
    simp [effectiveType, hni]
  refine ⟨heff, ?_, ?_, ?_⟩
  · rw [Update_queryUsed, if_pos heff]
  · rw [Update_timeoutUsed, if_pos heff]
  · rw [Update_set_iff]
    exact Or.inr heff

/-- Witness for C5: an update requested as incremental on a policy with
no update field runs as full. -/
theorem disabled_incremental_coerces_to_full_witness :
    (Update samplePolicyNoIncr 0 60000 1000
        { published := none, cpuRelaxIterations := 0 }
        UpdateType.kIncremental 100 [[]] 0).timeoutUsed = 60000 :=
  (disabled_incremental_coerces_to_full samplePolicyNoIncr 0 60000 1000
      { published := none, cpuRelaxIterations := 0 }
      UpdateType.kIncremental 100 [[]] 0 (by decide)).2.2.1

omit [DecidableEq K] in
/-- C6: construction fails exactly when the scheduler allows
full-and-incremental updates while the policy disables incremental
updates, or the update correction is negative, or the `pgcomponent`
entry is empty; otherwise it succeeds, registering one cluster handle
per shard and starting periodic updates. -/
theorem construct_failure_conditions (p : Policy K V)
    (allowed : AllowedUpdateTypes) (cfg : ComponentConfig) (shardCount : Nat) :
    ((∃ e, construct p allowed cfg shardCount = Except.error e) ↔
      ((allowed = AllowedUpdateTypes.kFullAndIncremental ∧
          p.kIncrementalUpdates = false)
        ∨ cfg.updateCorrection < 0 ∨ cfg.pgcomponent = ""))
    ∧ (¬((allowed = AllowedUpdateTypes.kFullAndIncremental ∧
          p.kIncrementalUpdates = false)
        ∨ cfg.updateCorrection < 0 ∨ cfg.pgcomponent = "") →
      construct p allowed cfg shardCount = Except.ok
        { correction := cfg.updateCorrection,
          fullUpdateTimeout := cfg.fullUpdateOpTimeout,
          incrementalUpdateTimeout := cfg.incrementalUpdateOpTimeout,
          chunkSize := cfg.chunkSize,
          clusterCount := shardCount,
          periodicUpdatesStarted := true }) := by
  by_cases h1 : allowed = AllowedUpdateTypes.kFullAndIncremental ∧
      ¬p.kIncrementalUpdates
  · constructor
    · rw [construct, if_pos h1]
      simp_all
    · intro hno
      exact absurd (Or.inl ⟨h1.1, by simpa using h1.2⟩) hno
  · by_cases h2 : cfg.updateCorrection < 0
    · constructor
      · rw [construct, if_neg h1, if_pos h2]
        simp [h2]
      · intro hno
        exact absurd (Or.inr (Or.inl h2)) hno
    · by_cases h3 : cfg.pgcomponent = ""
      · constructor
        · rw [construct, if_neg h1, if_neg h2, if_pos h3]
          simp [h3]
        · intro hno
          exact absurd (Or.inr (Or.inr h3)) hno
      · constructor
        · rw [construct, if_neg h1, if_neg h2, if_neg h3]
          simp_all
        · intro _
          rw [construct, if_neg h1, if_neg h2, if_neg h3]

/-- Witness for C6: construction fails with a negative update
correction, at a concrete policy and configuration. -/
theorem construct_failure_conditions_witness :
    ∃ e, construct samplePolicy AllowedUpdateTypes.kOnlyFull
      { updateCorrection := -1, fullUpdateOpTimeout := 60000,
        incrementalUpdateOpTimeout := 1000, chunkSize := 0,
        pgcomponent := "pg" } 2 = Except.error e :=
  (construct_failure_conditions samplePolicy AllowedUpdateTypes.kOnlyFull
      { updateCorrection := -1, fullUpdateOpTimeout := 60000,
        incrementalUpdateOpTimeout := 1000, chunkSize := 0,
        pgcomponent := "pg" } 2).1.mpr (Or.inr (Or.inl (by decide)))

/-- C7: a row whose decoding throws is skipped, counted as exactly one
parse failure, and processing continues: `CacheResults` returns the
upsert of the successfully decoded rows together with the failure count,
and a full update publishes the upsert of every successfully decoded row
while reporting all failures. -/
theorem row_decode_failure_isolation
    (p : Policy K V) (correction ft it : Int) (st : CacheState K V)
    (lu : Int) (shards : List (List (Row K V))) (d : ℚ)
    (rows : List (Row K V)) (cache : AssocMap K V) :
    CacheResults rows cache =
      (AssocMap.upsertAll cache (decodedRows rows), failedCount rows)
    ∧ (Update p correction ft it st UpdateType.kFull lu shards d).parseFailures =
        (shards.map failedCount).sum
    ∧ (Update p correction ft it st UpdateType.kFull lu shards d).state.published =
        some (AssocMap.upsertAll ([] : AssocMap K V) (allDecodedRows shards)) := by
  have heff : effectiveType p UpdateType.kFull = UpdateType.kFull := by
    simp [effectiveType]
  refine ⟨?_, ?_, ?_⟩
  · exact Prod.ext (CacheResults_fst rows cache) (CacheResults_snd rows cache)
  · exact Update_parseFailures p correction ft it st UpdateType.kFull lu shards d
  · rw [Update_published, if_pos (Or.inr heff), heff]
    rfl

/-- Witness for C7: three rows with the middle one failing yield a
snapshot of the two decoded rows and one parse failure. -/
theorem row_decode_failure_isolation_witness :
    (Update samplePolicy 0 60000 1000
        { published := none, cpuRelaxIterations := 0 }
        UpdateType.kFull 100 [[some (1, "a"), none, some (2, "b")]] 0).parseFailures = 1 :=
  ((row_decode_failure_isolation samplePolicy 0 60000 1000
      { published := none, cpuRelaxIterations := 0 }
      100 [[some (1, "a"), none, some (2, "b")]] 0 [] []).2.1).trans (by decide)

/-- C8: after an update in which rows changed and the cumulative parse
phase exceeded the 10 ms threshold, the persistent relax-iteration count
becomes the floor of `changes / (elapsed_ms / 2 ms)`; otherwise it is
left unchanged, and it is preserved by any later update that does not
retrigger the adaptation. -/
theorem cpu_relax_adaptation
    (p : Policy K V) (correction ft it : Int) (st : CacheState K V)
    (t₀ : UpdateType) (lu : Int) (shards : List (List (Row K V))) (d : ℚ) :
    (0 < (Update p correction ft it st t₀ lu shards d).changes →
      kCpuRelaxThreshold < d →
      (Update p correction ft it st t₀ lu shards d).state.cpuRelaxIterations =
        (⌊((Update p correction ft it st t₀ lu shards d).changes : ℚ) /
          (d / kCpuRelaxInterval)⌋).toNat)
    ∧ (¬(0 < (Update p correction ft it st t₀ lu shards d).changes ∧
          kCpuRelaxThreshold < d) →
      (Update p correction ft it st t₀ lu shards d).state.cpuRelaxIterations =
        st.cpuRelaxIterations)
    ∧ (∀ (t₁ : UpdateType) (lu₁ : Int) (shards₁ : List (List (Row K V))) (d₁ : ℚ),
      ¬(0 < fetchedCount shards₁ ∧ kCpuRelaxThreshold < d₁) →
      (Update p correction ft it
          (Update p correction ft it st t₀ lu shards d).state
          t₁ lu₁ shards₁ d₁).state.cpuRelaxIterations =
        (Update p correction ft it st t₀ lu shards d).state.cpuRelaxIterations) := by
  refine ⟨?_, ?_, ?_⟩
  · intro hch hd
    rw [Update_changes] at hch
    rw [Update_relax, if_pos ⟨hch, hd⟩, Update_changes]
  · intro hn
    rw [Update_changes] at hn
    rw [Update_relax, if_neg hn]
  · intro t₁ lu₁ shards₁ d₁ hn
    rw [Update_relax, if_neg hn]

/-- Witness for C8: 30 fetched rows parsed in 12 ms set the relax count
to 5. -/
theorem cpu_relax_adaptation_witness :
    (Update samplePolicy 0 60000 1000
        { published := none, cpuRelaxIterations := 7 }
        UpdateType.kFull 100
        [List.replicate 30 (some (1, "a"))] 12).state.cpuRelaxIterations = 5 := by
  have h := (cpu_relax_adaptation samplePolicy 0 60000 1000
      { published := none, cpuRelaxIterations := 7 }
      UpdateType.kFull 100 [List.replicate 30 (some (1, "a"))] 12).1
      (by rw [Update_changes]; decide) (by norm_num [kCpuRelaxThreshold])
  rw [Update_changes] at h
  rw [h]
  have h5 : (⌊(↑(fetchedCount [List.replicate 30 (some ((1 : Nat), "a"))]) : ℚ) /
      ((12 : ℚ) / kCpuRelaxInterval)⌋) = 5 := by
    norm_num [fetchedCount, kCpuRelaxInterval]
  rw [h5]
  rfl

/-- C9: the delta bound is computed per shard from the working container
by the policy override when one is defined and as
`last_update - correction` otherwise, and it is computed for every shard
regardless of the update kind. -/
theorem delta_bound_computation
    (p : Policy K V) (correction ft it : Int) (st : CacheState K V)
    (t₀ : UpdateType) (lu : Int) (shards : List (List (Row K V))) (d : ℚ) :
    (Update p correction ft it st t₀ lu shards d).bounds =
      boundsSpec p correction lu
        (GetDataSnapshot st.published (effectiveType p t₀)) shards
    ∧ (Update p correction ft it st t₀ lu shards d).bounds.length = shards.length
    ∧ (p.getLastKnownUpdated = none →
        (Update p correction ft it st t₀ lu shards d).bounds =
          List.replicate shards.length (lu - correction))
    ∧ (∀ f, p.getLastKnownUpdated = some f →
        ∀ (c : AssocMap K V) (rows : List (Row K V))
          (rest : List (List (Row K V))),
        boundsSpec p correction lu c (rows :: rest) =
          f c :: boundsSpec p correction lu
            (AssocMap.upsertAll c (decodedRows rows)) rest) := by
  refine ⟨Update_bounds p correction ft it st t₀ lu shards d, ?_, ?_, ?_⟩
  · rw [Update_bounds, boundsSpec_length]
  · intro h
    rw [Update_bounds, boundsSpec_default p correction lu _ shards h]
  · intro f hf c rows rest
    rw [boundsSpec, GetLastUpdated, hf]

/-- Witness for C9: with the container-size override, a full update over
two shards binds the override of the evolving working container for each
shard. -/
theorem delta_bound_computation_witness :
    (Update samplePolicyCustom 5 60000 1000
        { published := none, cpuRelaxIterations := 0 }
        UpdateType.kFull 100 [[some (1, "a")], [some (2, "b")]] 0).bounds =
      [0, 1] :=
  ((delta_bound_computation samplePolicyCustom 5 60000 1000
      { published := none, cpuRelaxIterations := 0 }
      UpdateType.kFull 100 [[some (1, "a")], [some (2, "b")]] 0).1).trans
    (by decide)

/-- C10: the `changes` counter equals the number of rows fetched across
all shards including rows whose decoding failed, so an incremental
update in which every fetched row fails to decode still publishes a
snapshot equal to the prior one, and the relax adaptation is driven by
the fetched-row count. -/
theorem changes_counts_fetched_rows
    (p : Policy K V) (correction ft it : Int) (S : AssocMap K V) (ri : Nat)
    (lu : Int) (shards : List (List (Row K V))) (d : ℚ)
    (hinc : p.kIncrementalUpdates = true)
    (hall : ∀ rows ∈ shards, ∀ r ∈ rows, r = (none : Row K V))
    (hpos : 0 < fetchedCount shards) :
    (∀ (st : CacheState K V) (t₀ : UpdateType)
        (shards₁ : List (List (Row K V))) (d₁ : ℚ),
      (Update p correction ft it st t₀ lu shards₁ d₁).changes =
        fetchedCount shards₁)
    ∧ (Update p correction ft it { published := some S, cpuRelaxIterations := ri }
        UpdateType.kIncremental lu shards d).set = true
    ∧ (Update p correction ft it { published := some S, cpuRelaxIterations := ri }
        UpdateType.kIncremental lu shards d).state.published = some S
    ∧ (kCpuRelaxThreshold < d →
        (Update p correction ft it
            { published := some S, cpuRelaxIterations := ri }
            UpdateType.kIncremental lu shards d).state.cpuRelaxIterations =
          (⌊(fetchedCount shards : ℚ) / (d / kCpuRelaxInterval)⌋).toNat) := by
  have heff : effectiveType p UpdateType.kIncremental = UpdateType.kIncremental := by
    simp [effectiveType, hinc]
  refine ⟨fun st t₀ shards₁ d₁ =>
    Update_changes p correction ft it st t₀ lu shards₁ d₁, ?_, ?_, ?_⟩
  · rw [Update_set_iff]
    exact Or.inl hpos
  · rw [Update_published, if_pos (Or.inl hpos), heff,
      allDecodedRows_of_all_none shards hall]
    rfl
  · intro hd
    rw [Update_relax, if_pos ⟨hpos, hd⟩]

/-- Witness for C10: an incremental update whose only two rows both fail
to decode still publishes the prior snapshot. -/
theorem changes_counts_fetched_rows_witness :
    (Update samplePolicy 0 60000 1000
        { published := some [(1, "a")], cpuRelaxIterations := 0 }
        UpdateType.kIncremental 100 [[none, none]] 0).state.published =
      some [(1, "a")] :=
  (changes_counts_fetched_rows samplePolicy 0 60000 1000 [(1, "a")] 0 100
      [[none, none]] 0 (by decide) (by decide) (by decide)).2.2.1

end PgCache
